import Mathlib

/-!
Verification development for the cloudops-mcp-server repository (src/main.py).

The Python source is shallowly embedded: Python dicts become association
lists over String keys (insertion ordered, first-key lookup), floats become
rationals, and the stable Python sorted builtin becomes a stable insertion
sort defined below.  Each embedded definition mirrors one Python function
and is named after it (leading underscores dropped).
-/

/-- First-match lookup in an association list, mirroring Python dict lookup
(the embedding only ever builds lists with distinct keys, where first-match
lookup and dict lookup agree). -/
def lookupKey {α : Type} : List (String × α) → String → Option α
  | [], _ => none
  | (k, v) :: rest, key => if k = key then some v else lookupKey rest key

/-- Update the first entry holding the given key, leaving the rest alone. -/
def updateKey {α : Type} : List (String × α) → String → (α → α) → List (String × α)
  | [], _, _ => []
  | (k, v) :: rest, key, f =>
      if k = key then (k, f v) :: rest else (k, v) :: updateKey rest key f

/-- Insert an element into a list, before the first element that is not
strictly below it according to lt.  Used by stableSort. -/
def insertBefore {α : Type} (lt : α → α → Bool) (x : α) : List α → List α
  | [] => [x]
  | y :: ys => if lt y x then y :: insertBefore lt x ys else x :: y :: ys

/-- Stable insertion sort: among elements that compare equal, the original
order is preserved, exactly as the Python sorted builtin guarantees. -/
def stableSort {α : Type} (lt : α → α → Bool) : List α → List α
  | [] => []
  | x :: xs => insertBefore lt x (stableSort lt xs)

/-! ## Scoped client cache (get_aws_client, src/main.py lines 105-135)

The institutions credential store is modelled by the list of institution
names it holds; get_institution_credentials succeeds exactly on members.
Fresh boto3 clients are modelled by consecutive naturals drawn from a
counter, so two clients are the same instance iff they carry the same
number. -/

/-- Cache key construction, exactly the f-string on line 107 of the source:
service, institution and region joined by underscores. -/
def cache_key (service institution region : String) : String :=
  service ++ "_" ++ institution ++ "_" ++ region

/-- State of the process-wide client cache plus the supply of fresh client
instances. -/
structure ClientCache where
  entries : List (String × Nat)
  nextClient : Nat
deriving DecidableEq

/-- Embedding of get_aws_client: on a cache hit return the cached instance;
on a miss, fail (returning none, caching nothing) when the institution has
no stored credentials, otherwise construct a fresh client, cache it under
the concatenated key and return it. -/
def get_aws_client (store : List String) (service institution region : String)
    (st : ClientCache) : Option Nat × ClientCache :=
  let key := cache_key service institution region
  match lookupKey st.entries key with
  | some c => (some c, st)
  | none =>
      if institution ∈ store then
        (some st.nextClient, ⟨(key, st.nextClient) :: st.entries, st.nextClient + 1⟩)
      else (none, st)

/-! ## Date range resolution (_get_date_range, src/main.py lines 1224-1252)

Dates are proleptic Gregorian triples, as Python datetime.date.  The
explicit start and end arguments reach this helper already parsed; the
claim under verification only exercises the period paths. -/

structure PyDate where
  year : Nat
  month : Nat
  day : Nat
deriving DecidableEq

/-- Gregorian leap year rule, as implemented by Python datetime. -/
def isLeapYear (y : Nat) : Bool :=
  (y % 4 = 0 && y % 100 ≠ 0) || y % 400 = 0

/-- Number of days in a month of a given year, as Python datetime. -/
def daysInMonth (y m : Nat) : Nat :=
  if m = 2 then (if isLeapYear y then 29 else 28)
  else if m = 4 || m = 6 || m = 9 || m = 11 then 30
  else 31

/-- Python date.replace(day=1). -/
def replaceDay1 (d : PyDate) : PyDate := { d with day := 1 }

/-- Python date subtraction of one day (timedelta(days=1)), rolling over
month and year boundaries. -/
def minusOneDay (d : PyDate) : PyDate :=
  if 1 < d.day then { d with day := d.day - 1 }
  else if 1 < d.month then ⟨d.year, d.month - 1, daysInMonth d.year (d.month - 1)⟩
  else ⟨d.year - 1, 12, 31⟩

/-- Embedding of _get_date_range.  When both explicit dates are supplied
they are returned as parsed; otherwise the period shortcut or the default
current-month window is computed from today. -/
def get_date_range (today : PyDate) (period : Option String)
    (startEnd : Option (PyDate × PyDate)) : PyDate × PyDate :=
  match startEnd with
  | some p => p
  | none =>
      if period = some "past_month" then
        let firstDayCurrent := replaceDay1 today
        let lastDayPrevious := minusOneDay firstDayCurrent
        let firstDayPrevious := replaceDay1 lastDayPrevious
        (firstDayPrevious, lastDayPrevious)
      else if period = some "current_month" then
        (replaceDay1 today, today)
      else
        (replaceDay1 today, today)

/-- Specification-side description of the previous calendar month of a
date: its first day and its last day. -/
def previousMonthRange (today : PyDate) : PyDate × PyDate :=
  if today.month = 1 then
    (⟨today.year - 1, 12, 1⟩, ⟨today.year - 1, 12, 31⟩)
  else
    (⟨today.year, today.month - 1, 1⟩,
     ⟨today.year, today.month - 1, daysInMonth today.year (today.month - 1)⟩)

/-! ## Tool argument-validation prefixes (C6)

Each tool call of the server starts with the same guard sequence before any
AWS work happens; the embedding captures those prefixes exactly as coded
(order of checks included) and abstracts everything past the last guard
into an arbitrary continuation response, universally quantified in the
theorems.  All embedded tools are total Lean functions, which models the
guarantee that a tool call never raises past the tool boundary. -/

/-- Failure kinds distinguishable in the returned error documents. -/
inductive ToolError where
  | unknownInstitution (name : String)
  | capabilityUnavailable
deriving DecidableEq

/-- A tool response: a success document or a structured failure. -/
inductive ToolResponse where
  | success (payload : String)
  | failure (err : ToolError)
deriving DecidableEq

/-- Process environment a tool call observes: the loaded credential store
(institution names) and whether the optional inia capability imported. -/
structure ToolEnv where
  store : List String
  iniaAvailable : Bool
deriving DecidableEq

/-- Embedding of validate_institution: membership in the credential store. -/
def validate_institution (env : ToolEnv) (name : String) : Bool :=
  decide (name ∈ env.store)

/-- Embedding of the get_institutions prefix: a missing or empty institution
argument (Python falsiness) yields the available-institutions success
listing; an unknown institution yields the not-found failure. -/
def get_institutions (env : ToolEnv) (institution : Option String)
    (rest : ToolResponse) : ToolResponse :=
  match institution with
  | none => ToolResponse.success "available institutions listing"
  | some inst =>
      if inst = "" then ToolResponse.success "available institutions listing"
      else if !(validate_institution env inst) then
        ToolResponse.failure (ToolError.unknownInstitution inst)
      else rest

/-- Embedding of the get_projects prefix: institution validation first. -/
def get_projects (env : ToolEnv) (institution institutionId : String)
    (rest : ToolResponse) : ToolResponse :=
  if !(validate_institution env institution) then
    ToolResponse.failure (ToolError.unknownInstitution institution)
  else rest

/-- Embedding of the get_users prefix: institution validation first. -/
def get_users (env : ToolEnv) (institution : String)
    (rest : ToolResponse) : ToolResponse :=
  if !(validate_institution env institution) then
    ToolResponse.failure (ToolError.unknownInstitution institution)
  else rest

/-- Embedding of the get_tags prefix: institution validation first. -/
def get_tags (env : ToolEnv) (institution resourceArn : String)
    (rest : ToolResponse) : ToolResponse :=
  if !(validate_institution env institution) then
    ToolResponse.failure (ToolError.unknownInstitution institution)
  else rest

/-- Embedding of the check_budget prefix: institution validation first. -/
def check_budget (env : ToolEnv) (institution : String)
    (rest : ToolResponse) : ToolResponse :=
  if !(validate_institution env institution) then
    ToolResponse.failure (ToolError.unknownInstitution institution)
  else rest

/-- Embedding of the verify_email prefix: the inia availability check runs
before institution validation, exactly as in the source. -/
def verify_email (env : ToolEnv) (institution userIdentifier : String)
    (rest : ToolResponse) : ToolResponse :=
  if !env.iniaAvailable then ToolResponse.failure ToolError.capabilityUnavailable
  else if !(validate_institution env institution) then
    ToolResponse.failure (ToolError.unknownInstitution institution)
  else rest

/-- Embedding of the reset_password prefix: same guard order as
verify_email. -/
def reset_password (env : ToolEnv) (institution userIdentifier : String)
    (rest : ToolResponse) : ToolResponse :=
  if !env.iniaAvailable then ToolResponse.failure ToolError.capabilityUnavailable
  else if !(validate_institution env institution) then
    ToolResponse.failure (ToolError.unknownInstitution institution)
  else rest

/-! ## Organizational-unit tree walk (get_all_ous inside get_projects,
src/main.py lines 479-498, and max_ou_level on line 674)

The organization is modelled as an inductive tree: the root node carries
the root id, and each node lists its child organizational units.  The
embedded walk mirrors the recursion exactly: each child is emitted with
Level equal to the current level argument and ParentId equal to the id of
the node being listed, then the walk recurses into the child with
level + 1; the initial call passes the root id at level 0. -/

inductive OUTree where
  | node : String → List OUTree → OUTree

/-- Children of an organization tree node. -/
def OUTree.children : OUTree → List OUTree
  | node _ cs => cs

/-- One emitted organizational unit record: id, Level and ParentId. -/
structure OUEntry where
  ouId : String
  level : Nat
  parentId : String
deriving DecidableEq

/-- The recursive walk over the children of the node with id pid, at the
given level; mirrors the loop body of get_all_ous. -/
def walk_ous : String → List OUTree → Nat → List OUEntry
  | _, [], _ => []
  | pid, OUTree.node cid ccs :: cs, level =>
      ({ ouId := cid, level := level, parentId := pid } :: walk_ous cid ccs (level + 1))
        ++ walk_ous pid cs level

/-- Embedding of get_all_ous(root_id): walk the whole tree from the root at
level 0. -/
def get_all_ous : OUTree → List OUEntry
  | OUTree.node rid cs => walk_ous rid cs 0

/-- Embedding of the max_ou_level summary expression: the maximum Level
over all discovered OUs, or 0 when none exist. -/
def max_ou_level (entries : List OUEntry) : Nat :=
  if entries.isEmpty then 0 else (entries.map OUEntry.level).foldr max 0

/-- Modelled from the spec wording of the claim: the depth of every OU in
the forest when the root has depth 0 and every OU has depth equal to the
depth of its parent plus 1 (so direct children of the root have depth 1),
listed in the emission order of the walk. -/
def claimedDepths : List OUTree → List Nat
  | [] => []
  | OUTree.node _ ccs :: cs => (1 :: (claimedDepths ccs).map (· + 1)) ++ claimedDepths cs

/-- Modelled from the spec wording of the claim: the maximum claimed depth
over all OUs of the tree, 0 when there are none. -/
def claimedMaxDepth (t : OUTree) : Nat :=
  (claimedDepths t.children).foldr max 0

/-! ## SSO identity hierarchy (src/main.py lines 686-984)

Users, groups and assignments are the Python dicts the fetch helpers
return, embedded as association lists keyed by user or group id.  The
display shaping (primary email, Enabled or Disabled status) and the
hierarchy construction mirror _fetch_sso_users, _identify_group_owners and
_build_user_hierarchy line by line. -/

/-- A shaped email record as _fetch_sso_users builds it: Value, Primary and
the derived Status field. -/
structure SsoEmail where
  value : String
  primary : Bool
  status : String
deriving DecidableEq

/-- A user record of the users dict: DisplayName, UserName, Emails, Active,
Sent and the reset flag. -/
structure SsoUser where
  displayName : String
  userName : String
  emails : List SsoEmail
  active : Bool
  sent : Bool
  wasReset : Bool
deriving DecidableEq

/-- A group record of the groups dict: DisplayName, Description, Members
and SubGroups. -/
structure SsoGroup where
  displayName : String
  description : String
  members : List String
  subGroups : List String
deriving DecidableEq

/-- The permission-set assignment maps: principal id to granted account
ids, one map for users and one for groups. -/
structure Assignments where
  userAssign : List (String × List String)
  groupAssign : List (String × List String)
deriving DecidableEq

/-- The keys of an association list (dict key iteration). -/
def assocKeys {α : Type} (l : List (String × α)) : List String := l.map Prod.fst

/-- A raw identity-store email as list_users returns it: Value and Primary
may each be absent. -/
structure RawEmail where
  value : Option String
  primary : Option Bool
deriving DecidableEq

/-- A raw identity-store user: UserId always present, DisplayName and
UserName possibly absent, plus the email list. -/
structure RawUser where
  userId : String
  displayName : Option String
  userName : Option String
  emails : List RawEmail
deriving DecidableEq

/-- Email shaping inside _fetch_sso_users: missing Value becomes the empty
string, missing Primary becomes False, and Status is Verified exactly when
Primary is truthy. -/
def shapeEmail (e : RawEmail) : SsoEmail :=
  { value := e.value.getD ""
    primary := e.primary.getD false
    status := if e.primary.getD false then "Verified" else "Not_Verified" }

/-- Embedding of _fetch_sso_users: every fetched user gets DisplayName
defaulted through UserName to Unknown, shaped emails, and Active set to
True unconditionally. -/
def fetch_sso_users (rawUsers : List RawUser) : List (String × SsoUser) :=
  rawUsers.map (fun u =>
    (u.userId,
     { displayName := u.displayName.getD (u.userName.getD "Unknown")
       userName := u.userName.getD ""
       emails := u.emails.map shapeEmail
       active := true
       sent := false
       wasReset := false }))

/-- Embedding of _identify_group_owners: for each group assignment entry
whose group exists, collect every assigned user that exists and shares at
least one account with the group assignment; dedup models the Python set
(membership in the result is what the callers use). -/
def identify_group_owners (users : List (String × SsoUser))
    (groups : List (String × SsoGroup)) (asg : Assignments) :
    List (String × List String) :=
  asg.groupAssign.filterMap (fun ga =>
    if ga.1 ∈ assocKeys groups then
      some (ga.1,
        (asg.userAssign.filterMap (fun ua =>
          if ua.1 ∈ assocKeys users ∧ ∃ a ∈ ua.2, a ∈ ga.2 then some ua.1
          else none)).dedup)
    else none)

/-- Primary email resolution, repeated three times in
_build_user_hierarchy: the first email flagged Primary, else the first
email, else the empty string with status Not_Verified. -/
def primaryEmail : List SsoEmail → String × String
  | [] => ("", "Not_Verified")
  | e :: rest =>
      match (e :: rest).filter (fun x => x.primary) with
      | [] => (e.value, e.status)
      | p :: _ => (p.value, p.status)

/-- Display status resolution: Enabled when the Active flag holds,
Disabled otherwise. -/
def statusOf (active : Bool) : String :=
  if active then "Enabled" else "Disabled"

/-- A root-user output entry of _build_user_hierarchy. -/
structure RootUserEntry where
  userId : String
  displayName : String
  username : String
  email : String
  emailStatus : String
  accountIds : List String
  accountIdString : Option String
  status : String
deriving DecidableEq, Inhabited

/-- A group owner or member output entry of _build_user_hierarchy. -/
structure GroupUserEntry where
  userId : String
  displayName : String
  username : String
  email : String
  emailStatus : String
  accountIds : List String
  status : String
  isOwner : Bool
deriving DecidableEq

/-- A group output entry of _build_user_hierarchy. -/
structure GroupEntry where
  groupId : String
  groupName : String
  description : String
  accountIds : List String
  owners : List GroupUserEntry
  members : List GroupUserEntry
deriving DecidableEq, Inhabited

/-- The hierarchy _build_user_hierarchy returns. -/
structure UserHierarchy where
  rootUsers : List RootUserEntry
  groups : List GroupEntry
deriving DecidableEq

/-- Ascending comparison on display names for the stable sorts of the
hierarchy builder. -/
def byDisplayName (a b : GroupUserEntry) : Bool :=
  decide (a.displayName < b.displayName)

/-- The root-user entry shape of _build_user_hierarchy: identity fields,
resolved primary email, the assigned account ids with their sorted
comma-joined string form (None when the user has no assignments), and the
display status. -/
def mk_root_entry (asg : Assignments) (p : String × SsoUser) : RootUserEntry :=
  let userAccounts := (lookupKey asg.userAssign p.1).getD []
  let pe := primaryEmail p.2.emails
  { userId := p.1
    displayName := p.2.displayName
    username := p.2.userName
    email := pe.1
    emailStatus := pe.2
    accountIds := userAccounts
    accountIdString :=
      if userAccounts.isEmpty then none
      else some (String.intercalate ","
        (stableSort (fun a b => decide (a < b)) userAccounts))
    status := statusOf p.2.active }

/-- The root-user loop of _build_user_hierarchy: a user is emitted exactly
when its id is in neither the union of the owner lists nor the union of
the group member sets. -/
def root_users_of (users : List (String × SsoUser))
    (groups : List (String × SsoGroup)) (asg : Assignments)
    (owners : List (String × List String)) : List RootUserEntry :=
  users.filterMap (fun p =>
    if p.1 ∈ (owners.map Prod.snd).flatten
        ∨ p.1 ∈ (groups.map (fun g => g.2.members)).flatten then none
    else some (mk_root_entry asg p))

/-- The owner entry shape of _build_user_hierarchy, is_owner True. -/
def mk_owner_entry (asg : Assignments) (oid : String) (owner : SsoUser) :
    GroupUserEntry :=
  let pe := primaryEmail owner.emails
  { userId := oid
    displayName := owner.displayName
    username := owner.userName
    email := pe.1
    emailStatus := pe.2
    accountIds := (lookupKey asg.userAssign oid).getD []
    status := statusOf owner.active
    isOwner := true }

/-- The member entry shape of _build_user_hierarchy, is_owner False and no
account ids. -/
def mk_member_entry (mid : String) (mem : SsoUser) : GroupUserEntry :=
  let pe := primaryEmail mem.emails
  { userId := mid
    displayName := mem.displayName
    username := mem.userName
    email := pe.1
    emailStatus := pe.2
    accountIds := []
    status := statusOf mem.active
    isOwner := false }

/-- The owners-list block of _build_user_hierarchy for one group: each
owner id that resolves in the users dict yields an entry with is_owner
True. -/
def group_owner_entries (users : List (String × SsoUser)) (asg : Assignments)
    (ownerIds : List String) : List GroupUserEntry :=
  ownerIds.filterMap (fun oid =>
    match lookupKey users oid with
    | none => none
    | some owner => some (mk_owner_entry asg oid owner))

/-- The members-list block of _build_user_hierarchy for one group: a
member id is skipped when it is an owner of the group or absent from the
users dict. -/
def group_member_entries (users : List (String × SsoUser))
    (ownerIds mids : List String) : List GroupUserEntry :=
  mids.filterMap (fun mid =>
    if mid ∈ ownerIds then none
    else
      match lookupKey users mid with
      | none => none
      | some mem => some (mk_member_entry mid mem))

/-- The group loop of _build_user_hierarchy: groups without an owners
entry are skipped; the others are emitted with their stably sorted owner
and member entry lists. -/
def group_hierarchy_of (users : List (String × SsoUser))
    (groups : List (String × SsoGroup)) (asg : Assignments)
    (owners : List (String × List String)) : List GroupEntry :=
  groups.filterMap (fun g =>
    match lookupKey owners g.1 with
    | none => none
    | some ownerIds =>
        some { groupId := g.1
               groupName := g.2.displayName
               description := g.2.description
               accountIds := (lookupKey asg.groupAssign g.1).getD []
               owners := stableSort byDisplayName (group_owner_entries users asg ownerIds)
               members := stableSort byDisplayName
                 (group_member_entries users ownerIds g.2.members) })

/-- Embedding of _build_user_hierarchy: the root-user list and the group
hierarchy, each stably sorted by display name respectively group name. -/
def build_user_hierarchy (users : List (String × SsoUser))
    (groups : List (String × SsoGroup)) (asg : Assignments)
    (owners : List (String × List String)) : UserHierarchy :=
  { rootUsers := stableSort
      (fun a b => decide (a.displayName < b.displayName))
      (root_users_of users groups asg owners)
    groups := stableSort
      (fun a b => decide (a.groupName < b.groupName))
      (group_hierarchy_of users groups asg owners) }

/-- A user of the running example: active, no emails. -/
def exUser : SsoUser :=
  { displayName := "Alice", userName := "alice", emails := []
    active := true, sent := false, wasReset := false }

/-- Example users dict with the single user u1. -/
def exUsers : List (String × SsoUser) := [("u1", exUser)]

/-- Example groups dict: one group g1 whose only member is u1 and that has
no account assignment. -/
def exGroups : List (String × SsoGroup) :=
  [("g1", { displayName := "G", description := "", members := ["u1"]
            subGroups := [] })]

/-- Example assignments: none at all. -/
def exAsg : Assignments := ⟨[], []⟩

/-- Second running example: u1 and u2, u1 assigned the account shared with
group g1, u2 a plain member of g1, so u1 is inferred owner of g1 and u2
its member. -/
def exUsers2 : List (String × SsoUser) :=
  [("u1", exUser),
   ("u2", { displayName := "Bob", userName := "bob", emails := []
            active := true, sent := false, wasReset := false })]

/-- Groups of the second example: g1 with members u1 and u2. -/
def exGroups2 : List (String × SsoGroup) :=
  [("g1", { displayName := "G", description := "", members := ["u1", "u2"]
            subGroups := [] })]

/-- Assignments of the second example: u1 and g1 share account acc. -/
def exAsg2 : Assignments := ⟨[("u1", ["acc"])], [("g1", ["acc"])]⟩

/-- A raw identity-store user for the status example. -/
def exRaw : List RawUser := [⟨"u1", some "Alice", some "alice", []⟩]

/-! ## Cost aggregation (_process_cost_data, src/main.py lines 1342-1376)

A Cost Explorer response page (one ResultsByTime entry) carries the period
start date and the grouped (account, service) cost amounts; amounts are
rationals standing for the parsed float amounts.  The aggregator is the
nested loop of the source, folding every group of every page into the
per-account dict. -/

/-- One group of a ResultsByTime entry: Keys[0], Keys[1], the parsed
UnblendedCost Amount and its Unit. -/
structure CostGroup where
  account : String
  service : String
  amount : ℚ
  costUnit : String
deriving DecidableEq

/-- One ResultsByTime entry: the TimePeriod Start date and the groups. -/
structure TimeResult where
  start : String
  groups : List CostGroup
deriving DecidableEq

/-- The per-account aggregate of _process_cost_data: running total,
currency of the first record seen, per-service and per-date breakdowns. -/
structure AccountCosts where
  total_cost : ℚ
  currency : String
  services : List (String × ℚ)
  daily_costs : List (String × ℚ)
deriving DecidableEq

/-- Add an amount at a key of a breakdown dict, inserting a zero entry
first when the key is new, exactly as the source does. -/
def addAmount (l : List (String × ℚ)) (k : String) (amt : ℚ) :
    List (String × ℚ) :=
  let l1 := match lookupKey l k with
    | some _ => l
    | none => l ++ [(k, 0)]
  updateKey l1 k (· + amt)

/-- The body of the inner loop of _process_cost_data for one group of a
page dated date: initialize the account entry when absent, then add the
amount to the total and to the service and daily breakdowns. -/
def process_cost_group (acc : List (String × AccountCosts)) (date : String)
    (g : CostGroup) : List (String × AccountCosts) :=
  let acc1 := match lookupKey acc g.account with
    | some _ => acc
    | none => acc ++ [(g.account,
        { total_cost := 0, currency := g.costUnit
          services := [], daily_costs := [] })]
  updateKey acc1 g.account (fun c =>
    { c with total_cost := c.total_cost + g.amount
             services := addAmount c.services g.service g.amount
             daily_costs := addAmount c.daily_costs date g.amount })

/-- Embedding of _process_cost_data: fold every group of every page into
the empty dict. -/
def process_cost_data (raw : List TimeResult) : List (String × AccountCosts) :=
  raw.foldl (fun acc r =>
    r.groups.foldl (fun a g => process_cost_group a r.start g) acc) []

/-- One flattened (account, service, date) cost record of the paginated
response, with its currency unit. -/
structure CostRec where
  account : String
  service : String
  date : String
  costUnit : String
  amount : ℚ
deriving DecidableEq

/-- The flattened record list of a paginated response, in iteration
order. -/
def records_of (raw : List TimeResult) : List CostRec :=
  raw.flatMap (fun r => r.groups.map (fun g =>
    ⟨g.account, g.service, r.start, g.costUnit, g.amount⟩))

/-- The loop body of _process_cost_data expressed on one flattened
record. -/
def process_cost_rec (acc : List (String × AccountCosts)) (r : CostRec) :
    List (String × AccountCosts) :=
  process_cost_group acc r.date ⟨r.account, r.service, r.amount, r.costUnit⟩

/-- Amount stored at a key of a breakdown dict, 0 when absent. -/
def amountAt (l : List (String × ℚ)) (k : String) : ℚ :=
  ((lookupKey l k).getD 0)

/-- Total cost the aggregate reports for an account, 0 when absent. -/
def totalCostOf (costs : List (String × AccountCosts)) (a : String) : ℚ :=
  ((lookupKey costs a).map AccountCosts.total_cost).getD 0

/-- Per-service total reported for an account, 0 when absent. -/
def serviceCostOf (costs : List (String × AccountCosts)) (a s : String) : ℚ :=
  amountAt (((lookupKey costs a).map AccountCosts.services).getD []) s

/-- Per-date total reported for an account, 0 when absent. -/
def dailyCostOf (costs : List (String × AccountCosts)) (a d : String) : ℚ :=
  amountAt (((lookupKey costs a).map AccountCosts.daily_costs).getD []) d

/-- Sum of the amounts of the records a Boolean predicate selects. -/
def sumAmounts (l : List CostRec) (p : CostRec → Bool) : ℚ :=
  ((l.filter p).map CostRec.amount).sum

/-- Two example response pages. -/
def exRaw1 : List TimeResult :=
  [⟨"2024-03-01", [⟨"a", "ec2", 5, "USD"⟩, ⟨"b", "s3", 7, "USD"⟩]⟩,
   ⟨"2024-03-02", [⟨"a", "ec2", 3, "USD"⟩]⟩]

/-- The same pages with the page order and the records inside the first
page both shuffled. -/
def exRaw2 : List TimeResult :=
  [⟨"2024-03-02", [⟨"a", "ec2", 3, "USD"⟩]⟩,
   ⟨"2024-03-01", [⟨"b", "s3", 7, "USD"⟩, ⟨"a", "ec2", 5, "USD"⟩]⟩]

/-! ## Budget analysis (_analyze_project_budgets and
_calculate_institution_costs, src/main.py lines 1425-1515)

Monetary values are rationals; the Python round(x, 2) at the response
boundary is modelled as rounding x times 100 to the nearest integer and
dividing back (the floating-point tie behaviour of Python is immaterial to
the claims, none of which sits on a tie). -/

/-- Rounding to two decimal places at the response boundary. -/
def round2 (q : ℚ) : ℚ := (round (q * 100) : ℤ) / 100

/-- One per-project analysis entry of _analyze_project_budgets. -/
structure ProjectAnalysis where
  project_id : String
  budget : ℚ
  actual_cost : ℚ
  budget_status : String
  budget_utilization : ℚ
  remaining_budget : ℚ
  overage : ℚ
  currency : String
  cost_breakdown : List (String × ℚ)
deriving DecidableEq, Inhabited

/-- The summary block of the budget analysis. -/
structure BudgetSummary where
  total_cost : ℚ
  total_budget : ℚ
  overbudget_count : Nat
  total_projects : Nat
  budget_utilization : ℚ
  remaining_budget : ℚ
deriving DecidableEq

/-- The full result of _analyze_project_budgets. -/
structure BudgetAnalysis where
  projects : List ProjectAnalysis
  overbudget_projects : List ProjectAnalysis
  summary : BudgetSummary
deriving DecidableEq

/-- The per-account body of the _analyze_project_budgets loop: resolve the
budget (0 when the account has none), derive utilization, status, clamped
remaining budget and overage, and the top five services by cost
(descending, stable on ties as the Python sort). -/
def analyze_one_project (budgets : List (String × ℚ))
    (p : String × AccountCosts) : ProjectAnalysis :=
  let budget := (lookupKey budgets p.1).getD 0
  let actual := p.2.total_cost
  let utilization := if budget > 0 then actual / budget * 100 else 0
  { project_id := p.1
    budget := budget
    actual_cost := actual
    budget_status :=
      if actual > budget ∧ budget > 0 then "overbudget" else "within_budget"
    budget_utilization := round2 utilization
    remaining_budget := max 0 (budget - actual)
    overage := max 0 (actual - budget)
    currency := p.2.currency
    cost_breakdown :=
      ((stableSort (fun a b : String × ℚ => decide (b.2 < a.2)) p.2.services).take 5).map
        (fun sv => (sv.1, round2 sv.2)) }

/-- Embedding of _analyze_project_budgets: analyze every account of the
cost dict in order, collect the overbudget ones, and build the summary
with the loop-accumulated totals, rounded as the source rounds them (the
utilization and the clamped remaining budget are computed from the already
rounded totals). -/
def analyze_project_budgets (costs : List (String × AccountCosts))
    (budgets : List (String × ℚ)) : BudgetAnalysis :=
  let projects := costs.map (analyze_one_project budgets)
  let overb := projects.filter (fun pr => decide (pr.budget_status = "overbudget"))
  let rCost := round2 ((projects.map ProjectAnalysis.actual_cost).sum)
  let rBudget := round2 ((projects.map ProjectAnalysis.budget).sum)
  { projects := projects
    overbudget_projects := overb
    summary :=
      { total_cost := rCost
        total_budget := rBudget
        overbudget_count := overb.length
        total_projects := projects.length
        budget_utilization :=
          round2 (if rBudget > 0 then rCost / rBudget * 100 else 0)
        remaining_budget := round2 (max 0 (rBudget - rCost)) } }

/-- The institution-wide rollup of _calculate_institution_costs. -/
structure InstitutionTotals where
  total_cost : ℚ
  total_budget : ℚ
  remaining_budget : ℚ
  budget_utilization : ℚ
  top_services : List (String × ℚ)
deriving DecidableEq

/-- Embedding of _calculate_institution_costs: sum the raw account totals
and the analyzed project budgets, aggregate the per-service costs across
all accounts, and report the rounded totals, the clamped rounded remaining
budget and the top ten services. -/
def calculate_institution_costs (costs : List (String × AccountCosts))
    (projects : List ProjectAnalysis) : InstitutionTotals :=
  let totalCost := (costs.map (fun p => p.2.total_cost)).sum
  let totalBudget := (projects.map ProjectAnalysis.budget).sum
  let allServices := costs.foldl (fun acc p =>
    p.2.services.foldl (fun a2 sv => addAmount a2 sv.1 sv.2) acc) []
  { total_cost := round2 totalCost
    total_budget := round2 totalBudget
    remaining_budget := round2 (max 0 (totalBudget - totalCost))
    budget_utilization :=
      round2 (if totalBudget > 0 then totalCost / totalBudget * 100 else 0)
    top_services :=
      ((stableSort (fun a b : String × ℚ => decide (b.2 < a.2)) allServices).take 10).map
        (fun sv => (sv.1, round2 sv.2)) }

/-- Example cost dict for the budget claims: account a with cost 1. -/
def exCosts3 : List (String × AccountCosts) :=
  [("a", { total_cost := 1, currency := "USD", services := [], daily_costs := [] })]

/-- Example budgets: account a with budget 3. -/
def exBudgets3 : List (String × ℚ) := [("a", 3)]

/-! ## Theorems -/

theorem mem_insertBefore {α : Type} (lt : α → α → Bool) (x a : α) (l : List α) :
    a ∈ insertBefore lt x l ↔ a = x ∨ a ∈ l := by
  induction l with
  | nil => simp [insertBefore]
  | cons y ys ih =>
      by_cases h : lt y x = true
      · simp only [insertBefore, if_pos h, List.mem_cons, ih]
        tauto
      · simp only [insertBefore, if_neg h, List.mem_cons]

theorem mem_stableSort {α : Type} (lt : α → α → Bool) (a : α) (l : List α) :
    a ∈ stableSort lt l ↔ a ∈ l := by
  induction l with
  | nil => simp [stableSort]
  | cons x xs ih => simp [stableSort, mem_insertBefore, ih]

theorem perm_insertBefore {α : Type} (lt : α → α → Bool) (x : α) (l : List α) :
    (insertBefore lt x l).Perm (x :: l) := by
  induction l with
  | nil => simp [insertBefore]
  | cons y ys ih =>
      by_cases h : lt y x = true
      · simpa [insertBefore, h] using (ih.cons y).trans (List.Perm.swap x y ys)
      · simp [insertBefore, h]

theorem perm_stableSort {α : Type} (lt : α → α → Bool) (l : List α) :
    (stableSort lt l).Perm l := by
  induction l with
  | nil => simp [stableSort]
  | cons x xs ih =>
      exact (perm_insertBefore lt x (stableSort lt xs)).trans (ih.cons x)

/-- C7: with no explicit dates and no period, the analysis range resolves to
(first day of the current month, today); with period past_month it resolves
to the first and last day of the previous calendar month. -/
theorem date_range_resolution (today : PyDate) (hm : 1 ≤ today.month) :
    get_date_range today none none = (replaceDay1 today, today) ∧
    get_date_range today (some "past_month") none = previousMonthRange today := by
  constructor
  · rfl
  · simp only [get_date_range, previousMonthRange, replaceDay1, minusOneDay]
    by_cases h : today.month = 1
    · simp [h, daysInMonth]
    · have h2 : 1 < today.month := lt_of_le_of_ne hm (Ne.symm h)
      simp [h, h2]

/-- C7 witness: on a fixed today of 2024-03-15 the default range is
(2024-03-01, 2024-03-15) and the past_month range is
(2024-02-01, 2024-02-29), February 2024 being a leap month. -/
theorem date_range_resolution_witness :
    get_date_range ⟨2024, 3, 15⟩ none none = (⟨2024, 3, 1⟩, ⟨2024, 3, 15⟩) ∧
    get_date_range ⟨2024, 3, 15⟩ (some "past_month") none = (⟨2024, 2, 1⟩, ⟨2024, 2, 29⟩) := by
  have h := date_range_resolution ⟨2024, 3, 15⟩ (by decide)
  refine ⟨h.1, ?_⟩
  rw [h.2]
  decide

/-- C2: evaluation of the client cache at a key collision.  The second call
repeats the first with identical arguments and receives the same cached
instance (the idempotent half of the claim).  The third call names a
different institution, yet the underscore-joined cache key coincides with
the first key, so the cached client built from the credentials of
institution a_b is handed out for institution b: distinct triples do share
an instance, against the claim. -/
theorem get_aws_client_key_collision :
    (get_aws_client ["a_b", "b"] "s3" "a_b" "r" ⟨[], 0⟩).1 = some 0 ∧
    (get_aws_client ["a_b", "b"] "s3" "a_b" "r"
      (get_aws_client ["a_b", "b"] "s3" "a_b" "r" ⟨[], 0⟩).2).1 = some 0 ∧
    (get_aws_client ["a_b", "b"] "s3_a" "b" "r"
      (get_aws_client ["a_b", "b"] "s3" "a_b" "r" ⟨[], 0⟩).2).1 = some 0 ∧
    ("s3", "a_b", "r") ≠ ("s3_a", "b", "r") := by
  refine ⟨rfl, rfl, ?_, by decide⟩
  rfl

/-- C6 counterexample: the claim as stated fails.  With the delegated
capability unavailable, verify_email on an unknown institution returns the
capability-unavailable failure, not an UnknownInstitution failure; and
get_institutions on the empty institution name, also absent from the
store, returns a success listing rather than any failure. -/
theorem unknown_institution_counterexample :
    verify_email ⟨["sandbox"], false⟩ "nosuch" "user" (ToolResponse.success "p")
      = ToolResponse.failure ToolError.capabilityUnavailable ∧
    ToolResponse.failure ToolError.capabilityUnavailable
      ≠ ToolResponse.failure (ToolError.unknownInstitution "nosuch") ∧
    "nosuch" ∉ (⟨["sandbox"], false⟩ : ToolEnv).store ∧
    get_institutions ⟨["sandbox"], false⟩ (some "") (ToolResponse.success "p")
      = ToolResponse.success "available institutions listing" ∧
    "" ∉ (⟨["sandbox"], false⟩ : ToolEnv).store := by
  refine ⟨rfl, by decide, by decide, rfl, by decide⟩

/-- C6 amended: for every institution name absent from the credential
store, every tool call returns a well-formed response without raising; it
is an UnknownInstitution failure for get_projects, get_users, get_tags and
check_budget, for get_institutions when the name is nonempty (an empty
name yields the available-institutions listing instead), and for
verify_email and reset_password exactly when the delegated identity
capability is available, those two returning a capability-unavailable
failure otherwise. -/
theorem unknown_institution_failures (env : ToolEnv) (inst instId arn uid1 uid2 : String)
    (r1 r2 r3 r4 r5 r6 r7 : ToolResponse) (h : inst ∉ env.store) :
    (inst ≠ "" → get_institutions env (some inst) r1
        = ToolResponse.failure (ToolError.unknownInstitution inst)) ∧
    get_projects env inst instId r2
        = ToolResponse.failure (ToolError.unknownInstitution inst) ∧
    get_users env inst r3 = ToolResponse.failure (ToolError.unknownInstitution inst) ∧
    get_tags env inst arn r4 = ToolResponse.failure (ToolError.unknownInstitution inst) ∧
    check_budget env inst r5 = ToolResponse.failure (ToolError.unknownInstitution inst) ∧
    verify_email env inst uid1 r6
        = (if env.iniaAvailable then ToolResponse.failure (ToolError.unknownInstitution inst)
           else ToolResponse.failure ToolError.capabilityUnavailable) ∧
    reset_password env inst uid2 r7
        = (if env.iniaAvailable then ToolResponse.failure (ToolError.unknownInstitution inst)
           else ToolResponse.failure ToolError.capabilityUnavailable) := by
  have hv : validate_institution env inst = false := by
    simp [validate_institution, h]
  refine ⟨fun hne => ?_, ?_, ?_, ?_, ?_, ?_, ?_⟩
  · simp [get_institutions, hne, hv]
  · simp [get_projects, hv]
  · simp [get_users, hv]
  · simp [get_tags, hv]
  · simp [check_budget, hv]
  · cases hb : env.iniaAvailable <;> simp [verify_email, hv, hb]
  · cases hb : env.iniaAvailable <;> simp [reset_password, hv, hb]

/-- C6 witness: the amended statement applied to a concrete environment
holding only the institution sandbox and a concrete unknown name. -/
theorem unknown_institution_failures_witness :
    get_projects ⟨["sandbox"], true⟩ "nope" "123" (ToolResponse.success "p")
        = ToolResponse.failure (ToolError.unknownInstitution "nope") ∧
    verify_email ⟨["sandbox"], true⟩ "nope" "user" (ToolResponse.success "p")
        = ToolResponse.failure (ToolError.unknownInstitution "nope") := by
  have h := unknown_institution_failures ⟨["sandbox"], true⟩ "nope" "123" "arn" "user" "user"
    (ToolResponse.success "p") (ToolResponse.success "p") (ToolResponse.success "p")
    (ToolResponse.success "p") (ToolResponse.success "p") (ToolResponse.success "p")
    (ToolResponse.success "p") (by decide)
  exact ⟨h.2.1, by simpa using h.2.2.2.2.2.1⟩

theorem claimedDepths_pos (ts : List OUTree) : ∀ d ∈ claimedDepths ts, 1 ≤ d := by
  induction ts using claimedDepths.induct with
  | case1 => simp [claimedDepths]
  | case2 name ccs cs ih1 ih2 =>
      intro d hd
      simp only [claimedDepths, List.mem_append, List.mem_cons, List.mem_map] at hd
      rcases hd with (rfl | ⟨e, he, rfl⟩) | hd
      · omega
      · omega
      · exact ih2 d hd

theorem walk_ous_levels (pid : String) (ts : List OUTree) (l : Nat) :
    (walk_ous pid ts l).map OUEntry.level
      = (claimedDepths ts).map (fun d => l + (d - 1)) := by
  induction pid, ts, l using walk_ous.induct with
  | case1 pid l => simp [walk_ous, claimedDepths]
  | case2 pid cid ccs cs l ih1 ih2 =>
      have hmap : (claimedDepths ccs).map (fun d => (l + 1) + (d - 1))
          = (claimedDepths ccs).map (fun d => l + d) := by
        refine List.map_congr_left ?_
        intro d hd
        have := claimedDepths_pos ccs d hd
        omega
      simp [walk_ous, claimedDepths, ih1, ih2, hmap, Function.comp]

theorem foldr_max_map_sub_one (ds : List Nat) :
    ((ds.map (fun d => d - 1)).foldr max 0) = ds.foldr max 0 - 1 := by
  induction ds with
  | nil => simp
  | cons d ds ih =>
      simp only [List.map_cons, List.foldr_cons, ih]
      omega

theorem max_ou_level_eq_foldr (entries : List OUEntry) :
    max_ou_level entries = (entries.map OUEntry.level).foldr max 0 := by
  cases entries <;> simp [max_ou_level]

/-- C5 counterexample: on the synthetic organization with one OU directly
under the root, the claim predicts that the OU is emitted with depth
0 + 1 = 1 and that max_ou_level equals the tree depth 1; the walk emits it
with Level 0 and reports max_ou_level 0. -/
theorem ou_depth_counterexample :
    get_all_ous (OUTree.node "r" [OUTree.node "a" []])
      = [{ ouId := "a", level := 0, parentId := "r" }] ∧
    max_ou_level (get_all_ous (OUTree.node "r" [OUTree.node "a" []])) = 0 ∧
    claimedMaxDepth (OUTree.node "r" [OUTree.node "a" []]) = 1 ∧
    (0 : Nat) ≠ 1 := by
  refine ⟨?_, ?_, ?_, by decide⟩
  · simp [get_all_ous, walk_ous]
  · simp [max_ou_level, get_all_ous, walk_ous]
  · simp [claimedMaxDepth, claimedDepths, OUTree.children]

/-- C5 amended: the walk emits the direct children of the root with depth
0 and every deeper OU with depth equal to the depth of its parent plus 1,
so each emitted Level is the claimed depth of that OU minus one, and the
reported max_ou_level is the maximum claimed depth minus one (0 when no
OUs exist, since natural subtraction truncates). -/
theorem ou_walk_depths (t : OUTree) :
    (get_all_ous t).map OUEntry.level = (claimedDepths t.children).map (fun d => d - 1) ∧
    max_ou_level (get_all_ous t) = claimedMaxDepth t - 1 := by
  obtain ⟨rid, cs⟩ := t
  have h := walk_ous_levels rid cs 0
  have hz : (claimedDepths cs).map (fun d => 0 + (d - 1))
      = (claimedDepths cs).map (fun d => d - 1) := by
    refine List.map_congr_left ?_
    intro d _
    omega
  constructor
  · show (walk_ous rid cs 0).map OUEntry.level = _
    rw [h, hz]
    rfl
  · rw [max_ou_level_eq_foldr]
    show ((walk_ous rid cs 0).map OUEntry.level).foldr max 0 = _
    rw [h, hz, foldr_max_map_sub_one]
    rfl

theorem lookupKey_mem {α : Type} : ∀ (l : List (String × α)) (k : String) (v : α),
    lookupKey l k = some v → (k, v) ∈ l := by
  intro l
  induction l with
  | nil => intro k v h; simp [lookupKey] at h
  | cons p rest ih =>
      intro k v h
      obtain ⟨k1, v1⟩ := p
      by_cases hk : k1 = k
      · subst hk
        have h2 : v1 = v := by simpa [lookupKey] using h
        subst h2
        exact List.mem_cons_self _ _
      · simp only [lookupKey, if_neg hk] at h
        exact List.mem_cons_of_mem _ (ih k v h)

theorem mem_root_users_ids (users : List (String × SsoUser))
    (groups : List (String × SsoGroup)) (asg : Assignments)
    (owners : List (String × List String)) (uid : String) :
    uid ∈ (build_user_hierarchy users groups asg owners).rootUsers.map
        RootUserEntry.userId
      ↔ uid ∈ assocKeys users
        ∧ uid ∉ (owners.map Prod.snd).flatten
        ∧ uid ∉ (groups.map (fun g => g.2.members)).flatten := by
  have hperm := ((perm_stableSort
      (fun a b : RootUserEntry => decide (a.displayName < b.displayName))
      (root_users_of users groups asg owners)).map RootUserEntry.userId).mem_iff
      (a := uid)
  simp only [build_user_hierarchy] at hperm ⊢
  rw [hperm]
  simp only [root_users_of, List.mem_map, List.mem_filterMap, assocKeys]
  constructor
  · rintro ⟨e, ⟨p, hp, hfp⟩, rfl⟩
    split at hfp
    · exact absurd hfp (by simp)
    · rename_i hc
      push_neg at hc
      cases hfp
      exact ⟨⟨p, hp, rfl⟩, hc.1, hc.2⟩
  · rintro ⟨⟨p, hp, rfl⟩, ho, hm⟩
    refine ⟨mk_root_entry asg p, ⟨p, hp, ?_⟩, rfl⟩
    rw [if_neg (by tauto)]

/-- C1 amended: a user appears in root_users iff it is a user of the users
dict that is a member of no input group and an inferred owner of no group.
The claim restricted the right side to groups of the returned list, which
omits groups without an owners entry; membership in such a group still
removes a user from root_users (see the counterexample). -/
theorem root_user_exclusivity (users : List (String × SsoUser))
    (groups : List (String × SsoGroup)) (asg : Assignments) (uid : String) :
    uid ∈ (build_user_hierarchy users groups asg
        (identify_group_owners users groups asg)).rootUsers.map RootUserEntry.userId
      ↔ uid ∈ assocKeys users
        ∧ (∀ g ∈ groups, uid ∉ g.2.members)
        ∧ (∀ go ∈ identify_group_owners users groups asg, uid ∉ go.2) := by
  rw [mem_root_users_ids]
  have h1 : uid ∉ ((identify_group_owners users groups asg).map Prod.snd).flatten
      ↔ ∀ go ∈ identify_group_owners users groups asg, uid ∉ go.2 := by
    simp only [List.mem_flatten, List.mem_map]
    push_neg
    constructor
    · intro h go hgo
      exact h go.2 ⟨go, hgo, rfl⟩
    · rintro h s ⟨go, hgo, rfl⟩
      exact h go hgo
  have h2 : uid ∉ (groups.map (fun g => g.2.members)).flatten
      ↔ ∀ g ∈ groups, uid ∉ g.2.members := by
    simp only [List.mem_flatten, List.mem_map]
    push_neg
    constructor
    · intro h g hg
      exact h g.2.members ⟨g, hg, rfl⟩
    · rintro h s ⟨g, hg, rfl⟩
      exact h g hg
  rw [h1, h2]
  tauto

/-- C1 counterexample: with one user u1 whose only role is membership in a
group g1 without account assignments, g1 gets no owners entry and is not
returned, so u1 is absent from every returned group; yet u1 is also
excluded from root_users.  The biconditional of the claim fails at this
input. -/
theorem root_user_exclusivity_counterexample :
    ¬ (("u1" ∈ (build_user_hierarchy exUsers exGroups exAsg
          (identify_group_owners exUsers exGroups exAsg)).rootUsers.map
            RootUserEntry.userId)
        ↔ ∀ g ∈ (build_user_hierarchy exUsers exGroups exAsg
            (identify_group_owners exUsers exGroups exAsg)).groups,
          "u1" ∉ g.owners.map GroupUserEntry.userId
            ∧ "u1" ∉ g.members.map GroupUserEntry.userId) := by
  decide

theorem group_owner_entries_ids (users : List (String × SsoUser))
    (asg : Assignments) (ownerIds : List String) (uid : String)
    (h : uid ∈ (group_owner_entries users asg ownerIds).map GroupUserEntry.userId) :
    uid ∈ ownerIds := by
  rw [List.mem_map] at h
  obtain ⟨e, he, rfl⟩ := h
  rw [group_owner_entries, List.mem_filterMap] at he
  obtain ⟨oid, ho, hfo⟩ := he
  cases hl : lookupKey users oid with
  | none => rw [hl] at hfo; cases hfo
  | some owner =>
      rw [hl] at hfo
      cases hfo
      exact ho

theorem group_member_entries_ids (users : List (String × SsoUser))
    (ownerIds mids : List String) (uid : String)
    (h : uid ∈ (group_member_entries users ownerIds mids).map GroupUserEntry.userId) :
    uid ∉ ownerIds := by
  rw [List.mem_map] at h
  obtain ⟨e, he, rfl⟩ := h
  rw [group_member_entries, List.mem_filterMap] at he
  obtain ⟨mid, hm, hfm⟩ := he
  by_cases hin : mid ∈ ownerIds
  · rw [if_pos hin] at hfm
    cases hfm
  · rw [if_neg hin] at hfm
    cases hl : lookupKey users mid with
    | none => rw [hl] at hfm; cases hfm
    | some mem =>
        rw [hl] at hfm
        cases hfm
        exact hin

/-- C8: within every group of the returned hierarchy, the owners list and
the members list are disjoint; a user in the inferred-owner set of the
group is dropped from the members list even when the identity store lists
it as a member. -/
theorem group_owners_members_disjoint (users : List (String × SsoUser))
    (groups : List (String × SsoGroup)) (asg : Assignments) (g : GroupEntry)
    (hg : g ∈ (build_user_hierarchy users groups asg
        (identify_group_owners users groups asg)).groups) (uid : String)
    (h : uid ∈ g.owners.map GroupUserEntry.userId) :
    uid ∉ g.members.map GroupUserEntry.userId := by
  intro hmem
  simp only [build_user_hierarchy] at hg
  rw [mem_stableSort] at hg
  rw [group_hierarchy_of, List.mem_filterMap] at hg
  obtain ⟨p, hp, hfp⟩ := hg
  cases hl : lookupKey (identify_group_owners users groups asg) p.1 with
  | none => rw [hl] at hfp; cases hfp
  | some ownerIds =>
      rw [hl] at hfp
      cases hfp
      have ho : uid ∈ ownerIds := by
        refine group_owner_entries_ids users asg ownerIds uid ?_
        have := ((perm_stableSort byDisplayName
          (group_owner_entries users asg ownerIds)).map GroupUserEntry.userId).mem_iff
          (a := uid)
        exact this.mp h
      have hno : uid ∉ ownerIds := by
        refine group_member_entries_ids users ownerIds p.2.members uid ?_
        have := ((perm_stableSort byDisplayName
          (group_member_entries users ownerIds p.2.members)).map
            GroupUserEntry.userId).mem_iff (a := uid)
        exact this.mp hmem
      exact hno ho

/-- C8 witness: in the second example the returned group has u1 as owner,
and the theorem applied there shows u1 absent from its members list. -/
theorem group_owners_members_disjoint_witness :
    "u1" ∉ ((build_user_hierarchy exUsers2 exGroups2 exAsg2
        (identify_group_owners exUsers2 exGroups2 exAsg2)).groups.headI).members.map
        GroupUserEntry.userId :=
  group_owners_members_disjoint exUsers2 exGroups2 exAsg2
    ((build_user_hierarchy exUsers2 exGroups2 exAsg2
        (identify_group_owners exUsers2 exGroups2 exAsg2)).groups.headI)
    (by decide) "u1" (by decide)

theorem fetch_sso_users_active (raw : List RawUser) :
    ∀ p ∈ fetch_sso_users raw, (Prod.snd p).active = true := by
  intro p hp
  rw [fetch_sso_users, List.mem_map] at hp
  obtain ⟨u, hu, rfl⟩ := hp
  rfl

theorem hierarchy_statuses_enabled (users : List (String × SsoUser))
    (groups : List (String × SsoGroup)) (asg : Assignments)
    (owners : List (String × List String))
    (hact : ∀ p ∈ users, (Prod.snd p).active = true) :
    (∀ e ∈ (build_user_hierarchy users groups asg owners).rootUsers,
        e.status = "Enabled") ∧
    (∀ g ∈ (build_user_hierarchy users groups asg owners).groups,
        (∀ e ∈ g.owners, e.status = "Enabled") ∧
        (∀ e ∈ g.members, e.status = "Enabled")) := by
  constructor
  · intro e he
    simp only [build_user_hierarchy] at he
    rw [mem_stableSort, root_users_of, List.mem_filterMap] at he
    obtain ⟨p, hp, hfp⟩ := he
    split at hfp
    · cases hfp
    · cases hfp
      have ha := hact p hp
      simp [mk_root_entry, statusOf, ha]
  · intro g hg
    simp only [build_user_hierarchy] at hg
    rw [mem_stableSort, group_hierarchy_of, List.mem_filterMap] at hg
    obtain ⟨p, hp, hfp⟩ := hg
    cases hl : lookupKey owners p.1 with
    | none => rw [hl] at hfp; cases hfp
    | some ownerIds =>
        rw [hl] at hfp
        cases hfp
        constructor
        · intro e he
          replace he : e ∈ stableSort byDisplayName
              (group_owner_entries users asg ownerIds) := he
          rw [mem_stableSort, group_owner_entries, List.mem_filterMap] at he
          obtain ⟨oid, ho, hfo⟩ := he
          cases hlo : lookupKey users oid with
          | none => rw [hlo] at hfo; cases hfo
          | some owner =>
              rw [hlo] at hfo
              cases hfo
              have ha := hact (oid, owner) (lookupKey_mem users oid owner hlo)
              simp only [mk_owner_entry, statusOf]
              rw [show owner.active = true from ha]
              simp
        · intro e he
          replace he : e ∈ stableSort byDisplayName
              (group_member_entries users ownerIds p.2.members) := he
          rw [mem_stableSort, group_member_entries, List.mem_filterMap] at he
          obtain ⟨mid, hm, hfm⟩ := he
          split at hfm
          · cases hfm
          · cases hlm : lookupKey users mid with
            | none => rw [hlm] at hfm; cases hfm
            | some mem =>
                rw [hlm] at hfm
                cases hfm
                have ha := hact (mid, mem) (lookupKey_mem users mid mem hlm)
                simp only [mk_member_entry, statusOf]
                rw [show mem.active = true from ha]
                simp

/-- C9: every user entry the users tool produces, as root user, group
owner or group member, carries status Enabled; Disabled cannot occur
because _fetch_sso_users sets the Active flag of every fetched user to
True unconditionally. -/
theorem statuses_always_enabled (raw : List RawUser)
    (groups : List (String × SsoGroup)) (asg : Assignments) :
    (∀ e ∈ (build_user_hierarchy (fetch_sso_users raw) groups asg
        (identify_group_owners (fetch_sso_users raw) groups asg)).rootUsers,
        e.status = "Enabled") ∧
    (∀ g ∈ (build_user_hierarchy (fetch_sso_users raw) groups asg
        (identify_group_owners (fetch_sso_users raw) groups asg)).groups,
        (∀ e ∈ g.owners, e.status = "Enabled") ∧
        (∀ e ∈ g.members, e.status = "Enabled")) :=
  hierarchy_statuses_enabled (fetch_sso_users raw) groups asg
    (identify_group_owners (fetch_sso_users raw) groups asg)
    (fetch_sso_users_active raw)

/-- C9 witness: fetching the example raw user and building the hierarchy
with no groups yields a root user whose status is Enabled. -/
theorem statuses_always_enabled_witness :
    ((build_user_hierarchy (fetch_sso_users exRaw) [] ⟨[], []⟩
        (identify_group_owners (fetch_sso_users exRaw) [] ⟨[], []⟩)).rootUsers.headI).status
      = "Enabled" :=
  (statuses_always_enabled exRaw [] ⟨[], []⟩).1
    ((build_user_hierarchy (fetch_sso_users exRaw) [] ⟨[], []⟩
        (identify_group_owners (fetch_sso_users exRaw) [] ⟨[], []⟩)).rootUsers.headI)
    (by decide)

theorem lookupKey_updateKey {α : Type} (l : List (String × α)) (k : String)
    (f : α → α) (k2 : String) :
    lookupKey (updateKey l k f) k2 =
      if k2 = k then (lookupKey l k).map f else lookupKey l k2 := by
  induction l with
  | nil => by_cases h : k2 = k <;> simp [updateKey, lookupKey, h]
  | cons p rest ih =>
      obtain ⟨k1, v1⟩ := p
      by_cases h1 : k1 = k
      · subst h1
        by_cases h2 : k2 = k1
        · subst h2
          simp [updateKey, lookupKey]
        · have h2s : ¬ k1 = k2 := fun hh => h2 hh.symm
          simp [updateKey, lookupKey, h2, h2s]
      · by_cases h2 : k1 = k2
        · subst h2
          simp [updateKey, lookupKey, h1]
        · simp [updateKey, lookupKey, h1, h2, ih]

theorem lookupKey_append_single {α : Type} (l : List (String × α)) (k : String)
    (v : α) (k2 : String) :
    lookupKey (l ++ [(k, v)]) k2 =
      match lookupKey l k2 with
      | some w => some w
      | none => if k = k2 then some v else none := by
  induction l with
  | nil => simp [lookupKey]
  | cons p rest ih =>
      obtain ⟨k1, v1⟩ := p
      by_cases h : k1 = k2 <;> simp [lookupKey, h, ih]

theorem amountAt_addAmount (l : List (String × ℚ)) (k : String) (amt : ℚ)
    (k2 : String) :
    amountAt (addAmount l k amt) k2 = amountAt l k2 + (if k = k2 then amt else 0) := by
  unfold addAmount amountAt
  cases h : lookupKey l k with
  | some w =>
      simp only [h]
      rw [lookupKey_updateKey]
      by_cases h2 : k2 = k
      · subst h2
        rw [if_pos rfl, h]
        simp
      · rw [if_neg h2, if_neg (fun hh => h2 hh.symm)]
        simp
  | none =>
      simp only [h]
      rw [lookupKey_updateKey]
      by_cases h2 : k2 = k
      · subst h2
        rw [if_pos rfl, lookupKey_append_single, h]
        simp [h]
      · rw [if_neg h2, lookupKey_append_single]
        have hne : ¬ k = k2 := fun hh => h2 hh.symm
        cases h3 : lookupKey l k2 <;> simp [hne]

theorem amountAt_nil (k : String) : amountAt [] k = 0 := rfl

theorem totalCostOf_step (acc : List (String × AccountCosts)) (r : CostRec)
    (a : String) :
    totalCostOf (process_cost_rec acc r) a =
      totalCostOf acc a + (if r.account = a then r.amount else 0) := by
  unfold process_cost_rec process_cost_group totalCostOf
  cases h : lookupKey acc r.account with
  | some c =>
      simp only [h]
      rw [lookupKey_updateKey]
      by_cases h2 : a = r.account
      · subst h2
        rw [if_pos rfl, h]
        simp
      · have h2s : ¬ r.account = a := fun hh => h2 hh.symm
        rw [if_neg h2, if_neg h2s]
        simp
  | none =>
      simp only [h]
      rw [lookupKey_updateKey]
      by_cases h2 : a = r.account
      · subst h2
        rw [if_pos rfl, lookupKey_append_single, h]
        simp [h]
      · have h2s : ¬ r.account = a := fun hh => h2 hh.symm
        rw [if_neg h2, lookupKey_append_single, if_neg h2s]
        cases h3 : lookupKey acc a <;> simp [h2s]

theorem serviceCostOf_step (acc : List (String × AccountCosts)) (r : CostRec)
    (a s : String) :
    serviceCostOf (process_cost_rec acc r) a s =
      serviceCostOf acc a s
        + (if r.account = a ∧ r.service = s then r.amount else 0) := by
  unfold process_cost_rec process_cost_group serviceCostOf
  cases h : lookupKey acc r.account with
  | some c =>
      simp only [h]
      rw [lookupKey_updateKey]
      by_cases h2 : a = r.account
      · subst h2
        rw [if_pos rfl, h]
        simp [amountAt_addAmount]
      · have h2s : ¬ r.account = a := fun hh => h2 hh.symm
        rw [if_neg h2]
        simp [h2s]
  | none =>
      simp only [h]
      rw [lookupKey_updateKey]
      by_cases h2 : a = r.account
      · subst h2
        rw [if_pos rfl, lookupKey_append_single, h]
        simp [amountAt_addAmount, amountAt, lookupKey]
        simpa [amountAt, lookupKey] using amountAt_addAmount [] r.service r.amount s
      · have h2s : ¬ r.account = a := fun hh => h2 hh.symm
        rw [if_neg h2, lookupKey_append_single, if_neg h2s]
        cases h3 : lookupKey acc a <;> simp [h2s]

theorem dailyCostOf_step (acc : List (String × AccountCosts)) (r : CostRec)
    (a d : String) :
    dailyCostOf (process_cost_rec acc r) a d =
      dailyCostOf acc a d
        + (if r.account = a ∧ r.date = d then r.amount else 0) := by
  unfold process_cost_rec process_cost_group dailyCostOf
  cases h : lookupKey acc r.account with
  | some c =>
      simp only [h]
      rw [lookupKey_updateKey]
      by_cases h2 : a = r.account
      · subst h2
        rw [if_pos rfl, h]
        simp [amountAt_addAmount]
      · have h2s : ¬ r.account = a := fun hh => h2 hh.symm
        rw [if_neg h2]
        simp [h2s]
  | none =>
      simp only [h]
      rw [lookupKey_updateKey]
      by_cases h2 : a = r.account
      · subst h2
        rw [if_pos rfl, lookupKey_append_single, h]
        simp [amountAt_addAmount, amountAt, lookupKey]
        simpa [amountAt, lookupKey] using amountAt_addAmount [] r.date r.amount d
      · have h2s : ¬ r.account = a := fun hh => h2 hh.symm
        rw [if_neg h2, lookupKey_append_single, if_neg h2s]
        cases h3 : lookupKey acc a <;> simp [h2s]

theorem totalCostOf_foldl (l : List CostRec) :
    ∀ (acc : List (String × AccountCosts)) (a : String),
    totalCostOf (l.foldl process_cost_rec acc) a =
      totalCostOf acc a + sumAmounts l (fun r => decide (r.account = a)) := by
  induction l with
  | nil => intro acc a; simp [sumAmounts]
  | cons r l ih =>
      intro acc a
      rw [List.foldl_cons, ih, totalCostOf_step]
      unfold sumAmounts
      rw [List.filter_cons]
      by_cases h : r.account = a
      · simp [h]
        ring
      · simp [h]

theorem serviceCostOf_foldl (l : List CostRec) :
    ∀ (acc : List (String × AccountCosts)) (a s : String),
    serviceCostOf (l.foldl process_cost_rec acc) a s =
      serviceCostOf acc a s
        + sumAmounts l (fun r => decide (r.account = a ∧ r.service = s)) := by
  induction l with
  | nil => intro acc a s; simp [sumAmounts]
  | cons r l ih =>
      intro acc a s
      rw [List.foldl_cons, ih, serviceCostOf_step]
      unfold sumAmounts
      rw [List.filter_cons]
      by_cases h : r.account = a ∧ r.service = s
      · simp [h]
        ring
      · simp [h]

theorem dailyCostOf_foldl (l : List CostRec) :
    ∀ (acc : List (String × AccountCosts)) (a d : String),
    dailyCostOf (l.foldl process_cost_rec acc) a d =
      dailyCostOf acc a d
        + sumAmounts l (fun r => decide (r.account = a ∧ r.date = d)) := by
  induction l with
  | nil => intro acc a d; simp [sumAmounts]
  | cons r l ih =>
      intro acc a d
      rw [List.foldl_cons, ih, dailyCostOf_step]
      unfold sumAmounts
      rw [List.filter_cons]
      by_cases h : r.account = a ∧ r.date = d
      · simp [h]
        ring
      · simp [h]

theorem process_cost_data_eq_foldl (raw : List TimeResult) :
    process_cost_data raw = (records_of raw).foldl process_cost_rec [] := by
  suffices h : ∀ acc, raw.foldl (fun acc r =>
      r.groups.foldl (fun a g => process_cost_group a r.start g) acc) acc
      = (records_of raw).foldl process_cost_rec acc from h []
  intro acc
  induction raw generalizing acc with
  | nil => rfl
  | cons r raw ih =>
      rw [List.foldl_cons, ih]
      show (records_of raw).foldl process_cost_rec _
        = ((r.groups.map _) ++ records_of raw).foldl process_cost_rec acc
      rw [List.foldl_append, List.foldl_map]
      rfl

theorem totalCostOf_data (raw : List TimeResult) (a : String) :
    totalCostOf (process_cost_data raw) a
      = sumAmounts (records_of raw) (fun r => decide (r.account = a)) := by
  rw [process_cost_data_eq_foldl, totalCostOf_foldl]
  simp [totalCostOf, lookupKey]

theorem serviceCostOf_data (raw : List TimeResult) (a s : String) :
    serviceCostOf (process_cost_data raw) a s
      = sumAmounts (records_of raw) (fun r => decide (r.account = a ∧ r.service = s)) := by
  rw [process_cost_data_eq_foldl, serviceCostOf_foldl]
  simp [serviceCostOf, lookupKey, amountAt]

theorem dailyCostOf_data (raw : List TimeResult) (a d : String) :
    dailyCostOf (process_cost_data raw) a d
      = sumAmounts (records_of raw) (fun r => decide (r.account = a ∧ r.date = d)) := by
  rw [process_cost_data_eq_foldl, dailyCostOf_foldl]
  simp [dailyCostOf, lookupKey, amountAt]

theorem sumAmounts_perm {l1 l2 : List CostRec} (h : l1.Perm l2)
    (p : CostRec → Bool) : sumAmounts l1 p = sumAmounts l2 p :=
  ((h.filter p).map CostRec.amount).sum_eq

/-- C4: feeding any rearrangement of the paginated cost pages, with the
records inside them also rearranged (stated as: the flattened record
multisets coincide), to the cost aggregator yields identical per-account
total costs, per-service totals and per-date totals. -/
theorem cost_aggregation_perm_invariant (raw1 raw2 : List TimeResult)
    (h : (records_of raw1).Perm (records_of raw2)) :
    (∀ a, totalCostOf (process_cost_data raw1) a
        = totalCostOf (process_cost_data raw2) a) ∧
    (∀ a s, serviceCostOf (process_cost_data raw1) a s
        = serviceCostOf (process_cost_data raw2) a s) ∧
    (∀ a d, dailyCostOf (process_cost_data raw1) a d
        = dailyCostOf (process_cost_data raw2) a d) := by
  refine ⟨fun a => ?_, fun a s => ?_, fun a d => ?_⟩
  · rw [totalCostOf_data, totalCostOf_data]
    exact sumAmounts_perm h _
  · rw [serviceCostOf_data, serviceCostOf_data]
    exact sumAmounts_perm h _
  · rw [dailyCostOf_data, dailyCostOf_data]
    exact sumAmounts_perm h _

/-- C4 witness: for the concrete shuffled pages, the aggregated total of
account a agrees. -/
theorem cost_aggregation_perm_invariant_witness :
    totalCostOf (process_cost_data exRaw1) "a"
      = totalCostOf (process_cost_data exRaw2) "a" :=
  (cost_aggregation_perm_invariant exRaw1 exRaw2 (by decide)).1 "a"

theorem round2_nonneg (q : ℚ) (h : 0 ≤ q) : 0 ≤ round2 q := by
  unfold round2
  apply div_nonneg _ (by norm_num)
  have h2 : (0:ℤ) ≤ round (q * 100) := by
    rw [round_eq, Int.le_floor]
    push_cast
    nlinarith
  exact_mod_cast h2

theorem round2_int_div_hundred (z : ℤ) : round2 ((z : ℚ) / 100) = (z : ℚ) / 100 := by
  unfold round2
  rw [div_mul_cancel₀ _ (by norm_num : (100:ℚ) ≠ 0), round_intCast]

theorem max_zero_int_div (z : ℤ) :
    max 0 ((z : ℚ) / 100) = ((max 0 z : ℤ) : ℚ) / 100 := by
  rcases le_total z 0 with h | h
  · have hz : (z:ℚ) ≤ 0 := by exact_mod_cast h
    have hzd : (z:ℚ) / 100 ≤ 0 :=
      div_nonpos_iff.mpr (Or.inr ⟨hz, by norm_num⟩)
    rw [max_eq_left hzd, max_eq_left h]
    norm_num
  · have hz : (0:ℚ) ≤ (z:ℚ) := by exact_mod_cast h
    have hzd : (0:ℚ) ≤ (z:ℚ) / 100 := div_nonneg hz (by norm_num)
    rw [max_eq_right hzd, max_eq_right h]

theorem round2_max_zero_sub (a b : ℚ) :
    round2 (max 0 (round2 a - round2 b)) = max 0 (round2 a - round2 b) := by
  have key : max 0 (round2 a - round2 b)
      = ((max 0 (round (a * 100) - round (b * 100)) : ℤ) : ℚ) / 100 := by
    unfold round2
    rw [div_sub_div_same]
    rw [show ((round (a * 100) : ℤ) : ℚ) - ((round (b * 100) : ℤ) : ℚ)
        = ((round (a * 100) - round (b * 100) : ℤ) : ℚ) by push_cast; ring]
    exact max_zero_int_div _
  rw [key, round2_int_div_hundred]

/-- C3 counterexample: with budget 3 and cost 1, the reported utilization
is the two-decimal rounding 33.33, not the exact value 100/3 the claim
asserts. -/
theorem budget_utilization_counterexample :
    ((analyze_project_budgets exCosts3 exBudgets3).projects.headI).budget = 3 ∧
    ((analyze_project_budgets exCosts3 exBudgets3).projects.headI).actual_cost = 1 ∧
    ((analyze_project_budgets exCosts3 exBudgets3).projects.headI).budget_utilization
      = 3333 / 100 ∧
    (3333 / 100 : ℚ) ≠ 1 / 3 * 100 := by
  refine ⟨rfl, rfl, ?_, by norm_num⟩
  show round2 (if (3:ℚ) > 0 then 1 / 3 * 100 else 0) = 3333 / 100
  rw [if_pos (by norm_num : (3:ℚ) > 0)]
  unfold round2
  norm_num [round_eq]

/-- C3 amended: an account is overbudget iff its cost strictly exceeds a
strictly positive budget, otherwise within_budget; the reported
utilization is cost divided by budget times 100 rounded to two decimals
when the budget is positive, and exactly 0 when the budget is 0. -/
theorem budget_classification (costs : List (String × AccountCosts))
    (budgets : List (String × ℚ)) (pr : ProjectAnalysis)
    (hpr : pr ∈ (analyze_project_budgets costs budgets).projects) :
    (pr.budget_status = "overbudget"
        ↔ pr.actual_cost > pr.budget ∧ pr.budget > 0) ∧
    (pr.budget_status = "overbudget" ∨ pr.budget_status = "within_budget") ∧
    (pr.budget > 0 → pr.budget_utilization
        = round2 (pr.actual_cost / pr.budget * 100)) ∧
    (pr.budget = 0 → pr.budget_utilization = 0) := by
  simp only [analyze_project_budgets] at hpr
  rw [List.mem_map] at hpr
  obtain ⟨p, hp, rfl⟩ := hpr
  unfold analyze_one_project
  dsimp only
  refine ⟨?_, ?_, ?_, ?_⟩
  · by_cases h : p.2.total_cost > (lookupKey budgets p.1).getD 0
        ∧ (lookupKey budgets p.1).getD 0 > 0
    · simp [h]
    · simp [h]
  · by_cases h : p.2.total_cost > (lookupKey budgets p.1).getD 0
        ∧ (lookupKey budgets p.1).getD 0 > 0
    · simp [h]
    · simp [h]
  · intro h
    rw [if_pos h]
  · intro h
    rw [h, if_neg (lt_irrefl (0:ℚ))]
    simp [round2]

/-- C3 witness: the theorem applied to the example account with budget 3
and cost 1; the hypothesis that the budget is positive is discharged by
evaluation. -/
theorem budget_classification_witness :
    ((analyze_project_budgets exCosts3 exBudgets3).projects.headI).budget_utilization
      = round2 (((analyze_project_budgets exCosts3 exBudgets3).projects.headI).actual_cost
          / ((analyze_project_budgets exCosts3 exBudgets3).projects.headI).budget * 100) :=
  (budget_classification exCosts3 exBudgets3
    ((analyze_project_budgets exCosts3 exBudgets3).projects.headI)
    (by exact List.mem_cons_self _ _)).2.2.1
    (by show (0:ℚ) < 3; norm_num)

/-- C10: remaining_budget and overage are clamped at zero everywhere: each
per-project entry reports remaining_budget = max 0 (budget - cost) and
overage = max 0 (cost - budget), both nonnegative; the summary reports
remaining_budget equal to max 0 of the difference of its reported totals,
nonnegative; and the institution rollup reports a nonnegative
remaining_budget. -/
theorem remaining_and_overage_nonneg (costs : List (String × AccountCosts))
    (budgets : List (String × ℚ)) :
    (∀ pr ∈ (analyze_project_budgets costs budgets).projects,
        pr.remaining_budget = max 0 (pr.budget - pr.actual_cost) ∧
        pr.overage = max 0 (pr.actual_cost - pr.budget) ∧
        0 ≤ pr.remaining_budget ∧ 0 ≤ pr.overage) ∧
    ((analyze_project_budgets costs budgets).summary.remaining_budget
        = max 0 ((analyze_project_budgets costs budgets).summary.total_budget
            - (analyze_project_budgets costs budgets).summary.total_cost)) ∧
    0 ≤ (analyze_project_budgets costs budgets).summary.remaining_budget ∧
    ∀ projects, 0 ≤ (calculate_institution_costs costs projects).remaining_budget := by
  refine ⟨?_, ?_, ?_, ?_⟩
  · intro pr hpr
    simp only [analyze_project_budgets] at hpr
    rw [List.mem_map] at hpr
    obtain ⟨p, hp, rfl⟩ := hpr
    exact ⟨rfl, rfl, le_max_left _ _, le_max_left _ _⟩
  · exact round2_max_zero_sub _ _
  · exact round2_nonneg _ (le_max_left _ _)
  · intro projects
    exact round2_nonneg _ (le_max_left _ _)

